import Mathlib

set_option maxRecDepth 8000

/-!
# Verification of the goirc IRC client core

This file gives a shallow embedding, in Lean 4, of the pure core of the
goirc library (message filtering/composition, line parsing, CTCP
demultiplexing, nick-collision policy, the thread-safe send facade,
shutdown, and the writer's flood pacing step), together with theorems
checking the library's specification against that embedding.

Conventions:
* Go strings that the code manipulates byte-wise (everything in the
  message-composition file: `filterMessage`, `firstWord`, `firstLine`,
  `compose*`) are modelled as `List Nat`, one `Nat` per byte (each < 256
  whenever produced by the model).
* Go strings that the code manipulates rune-wise (the line parser, the
  user-source regular expression, CTCP rewriting, the nick policy) are
  modelled as `List Char`, one `Char` per rune.  These operations only
  split on and compare ASCII characters, so on well-formed UTF-8 text the
  byte-wise Go code and the rune-wise model coincide.
* `encodeChar`/`encodeStr` translate a rune (sequence) to its UTF-8 bytes
  and connect the two views.
* Channels carrying outbound strings are modelled as queues (`List`),
  `nil`-able fields as `Option`.
-/

namespace Goirc

/-! ## UTF-8 bytes: Go `unicode/utf8` primitives used by `filterMessage` -/

/-- Go `utf8.RuneStart`: `b & 0xC0 != 0x80`. -/
def runeStart (b : Nat) : Bool := b &&& 0xC0 != 0x80

/-- A UTF-8 continuation byte, `0x80 ≤ b ≤ 0xBF` (Go's `locb`/`hicb` bounds). -/
def contB (b : Nat) : Bool := 0x80 ≤ b && b ≤ 0xBF

/-- Acceptance range for the second byte of a 3-byte sequence
(Go `utf8.acceptRanges` via the `first` table). -/
def accept3 (b0 b1 : Nat) : Bool :=
  if b0 = 0xE0 then 0xA0 ≤ b1 && b1 ≤ 0xBF
  else if b0 = 0xED then 0x80 ≤ b1 && b1 ≤ 0x9F
  else contB b1

/-- Acceptance range for the second byte of a 4-byte sequence. -/
def accept4 (b0 b1 : Nat) : Bool :=
  if b0 = 0xF0 then 0x90 ≤ b1 && b1 ≤ 0xBF
  else if b0 = 0xF4 then 0x80 ≤ b1 && b1 ≤ 0x8F
  else contB b1

/-- Go `utf8.DecodeRuneInString` on a byte list: returns `(rune, size)`;
`(0xFFFD, 1)` on any malformed or truncated input (and `(0xFFFD, 0)` on
empty input, as in Go). -/
def decodeRune : List Nat → Nat × Nat
  | [] => (0xFFFD, 0)
  | b0 :: rest =>
    if b0 < 0x80 then (b0, 1)
    else if b0 < 0xC2 then (0xFFFD, 1)
    else if b0 ≤ 0xDF then
      match rest with
      | b1 :: _ => if contB b1 then ((b0 - 0xC0) * 64 + (b1 - 0x80), 2) else (0xFFFD, 1)
      | [] => (0xFFFD, 1)
    else if b0 ≤ 0xEF then
      match rest with
      | b1 :: b2 :: _ =>
        if accept3 b0 b1 && contB b2 then
          ((b0 - 0xE0) * 4096 + (b1 - 0x80) * 64 + (b2 - 0x80), 3)
        else (0xFFFD, 1)
      | _ => (0xFFFD, 1)
    else if b0 ≤ 0xF4 then
      match rest with
      | b1 :: b2 :: b3 :: _ =>
        if accept4 b0 b1 && contB b2 && contB b3 then
          ((b0 - 0xF0) * 262144 + (b1 - 0x80) * 4096 + (b2 - 0x80) * 64 + (b3 - 0x80), 4)
        else (0xFFFD, 1)
      | _ => (0xFFFD, 1)
    else (0xFFFD, 1)

/-- The backwards scan inside Go `utf8.DecodeLastRuneInString`: starting at
index `i` and going down, stop at the first index whose byte is a rune
start; if none is found at an index `≥ lim`, Go leaves `start = lim - 1`
(clamped to `0` when that would be negative, which `Nat` subtraction
already does). -/
def findStartAux (s : List Nat) (lim : Nat) : Nat → Nat
  | 0 => if runeStart (s.getD 0 0) then 0 else lim - 1
  | i + 1 =>
    if runeStart (s.getD (i + 1) 0) then i + 1
    else if i + 1 ≤ lim then lim - 1
    else findStartAux s lim i

/-- Go `utf8.DecodeLastRuneInString` on a byte list. -/
def decodeLastRune (s : List Nat) : Nat × Nat :=
  if s.length = 0 then (0xFFFD, 0)
  else
    let e := s.length
    let last := s.getD (e - 1) 0
    if last < 0x80 then (last, 1)
    else
      let lim := e - 4
      let start := if 2 ≤ e then findStartAux s lim (e - 2) else 0
      let p := decodeRune (s.drop start)
      if start + p.2 = e then p else (0xFFFD, 1)

/-! ## The message filter (`filterMessage`) and composition helpers -/

/-- `filterMessage`: drops every NUL, CR and LF byte (the Go original does
this with an explicit copy loop over the byte indices, which is the same
as a byte filter), then truncates to 510 bytes; if the last byte of the
truncation is not a complete rune (Go checks `DecodeLastRuneInString`
against `utf8.RuneError`), it searches back through the last
`utf8.UTFMax = 4` byte positions (indices 509 down to 506 of the 510-byte
string) for a rune start and truncates there, keeping the plain 510-byte
truncation if no rune start is found in that window. -/
def filterMessage (text : List Nat) : List Nat :=
  let text1 := text.filter (fun c => !(c == 0 || c == 13 || c == 10))
  if 510 < text1.length then
    let text2 := text1.take 510
    if (decodeLastRune text2).1 = 0xFFFD then
      if runeStart (text2.getD 509 0) then text2.take 509
      else if runeStart (text2.getD 508 0) then text2.take 508
      else if runeStart (text2.getD 507 0) then text2.take 507
      else if runeStart (text2.getD 506 0) then text2.take 506
      else text2
    else text2
  else text1

/-- `firstWord`: the prefix of `text` before the first space, CR or LF. -/
def firstWord (text : List Nat) : List Nat :=
  text.takeWhile (fun c => !(c == 32 || c == 13 || c == 10))

/-- `firstLine`: the prefix of `text` before the first CR or LF. -/
def firstLine (text : List Nat) : List Nat :=
  text.takeWhile (fun c => !(c == 13 || c == 10))

/-! ## Valid UTF-8: encoder-based characterisation -/

/-- A Unicode scalar value: below `0x110000` and not a surrogate. -/
def isScalar (n : Nat) : Bool := n < 0x110000 && !(0xD800 ≤ n && n ≤ 0xDFFF)

/-- The canonical UTF-8 encoding of a scalar value. -/
def encodeChar (n : Nat) : List Nat :=
  if n < 0x80 then [n]
  else if n < 0x800 then [0xC0 + n / 64, 0x80 + n % 64]
  else if n < 0x10000 then [0xE0 + n / 4096, 0x80 + n / 64 % 64, 0x80 + n % 64]
  else [0xF0 + n / 262144, 0x80 + n / 4096 % 64, 0x80 + n / 64 % 64, 0x80 + n % 64]

/-- UTF-8 encoding of a rune sequence. -/
def encodeStr (rs : List Nat) : List Nat := (rs.map encodeChar).flatten

/-- A byte list is valid UTF-8 iff it is the encoding of some sequence of
scalar values. -/
def Utf8Valid (s : List Nat) : Prop :=
  ∃ rs : List Nat, (∀ r ∈ rs, isScalar r) ∧ s = encodeStr rs

theorem encodeStr_nil : encodeStr [] = [] := rfl

theorem encodeStr_cons (r : Nat) (rs : List Nat) :
    encodeStr (r :: rs) = encodeChar r ++ encodeStr rs := rfl

theorem encodeStr_append (a b : List Nat) :
    encodeStr (a ++ b) = encodeStr a ++ encodeStr b := by
  simp [encodeStr]

/-! ### Shape of `encodeChar` on each scalar range -/

theorem encodeChar_one {n : Nat} (h : n < 0x80) : encodeChar n = [n] := by
  simp [encodeChar, h]

theorem encodeChar_two {n : Nat} (h1 : 0x80 ≤ n) (h2 : n < 0x800) :
    encodeChar n = [0xC0 + n / 64, 0x80 + n % 64] := by
  simp only [encodeChar]
  rw [if_neg (by omega), if_pos h2]

theorem encodeChar_three {n : Nat} (h1 : 0x800 ≤ n) (h2 : n < 0x10000) :
    encodeChar n = [0xE0 + n / 4096, 0x80 + n / 64 % 64, 0x80 + n % 64] := by
  simp only [encodeChar]
  rw [if_neg (by omega), if_neg (by omega), if_pos h2]

theorem encodeChar_four {n : Nat} (h1 : 0x10000 ≤ n) :
    encodeChar n = [0xF0 + n / 262144, 0x80 + n / 4096 % 64, 0x80 + n / 64 % 64, 0x80 + n % 64] := by
  simp only [encodeChar]
  rw [if_neg (by omega), if_neg (by omega), if_neg (by omega)]

theorem encodeChar_ne_nil (n : Nat) : encodeChar n ≠ [] := by
  simp only [encodeChar]
  split <;> try simp
  split <;> try simp
  split <;> simp

/-! ### Byte-level facts about the encoder -/

set_option maxRecDepth 4000 in
/-- Bridge between the bit-mask form of `runeStart` and arithmetic bounds,
for genuine bytes. -/
theorem runeStart_iff (b : Nat) (hb : b < 256) :
    runeStart b = true ↔ (b < 0x80 ∨ 0xC0 ≤ b) := by
  revert hb; revert b; decide

theorem runeStart_of_lt (b : Nat) (h : b < 0x80) : runeStart b = true := by
  rw [runeStart_iff b (by omega)]; exact Or.inl h

theorem runeStart_of_lead (b : Nat) (h1 : 0xC0 ≤ b) (h2 : b < 256) : runeStart b = true := by
  rw [runeStart_iff b h2]; exact Or.inr h1

theorem runeStart_cont (b : Nat) (h1 : 0x80 ≤ b) (h2 : b ≤ 0xBF) : runeStart b = false := by
  have h : ¬(b < 0x80 ∨ 0xC0 ≤ b) := by omega
  have := runeStart_iff b (by omega)
  cases hr : runeStart b
  · rfl
  · exact absurd (this.mp hr) h

/-- Every byte of a multi-byte encoding is at least `0x80`. -/
theorem encodeChar_bytes_ge {n : Nat} (h : 0x80 ≤ n) :
    ∀ b ∈ encodeChar n, 0x80 ≤ b := by
  rcases Nat.lt_or_ge n 0x800 with h2 | h2
  · rw [encodeChar_two h h2]; intro b hb
    simp only [List.mem_cons, List.not_mem_nil, or_false] at hb
    rcases hb with rfl | rfl <;> omega
  rcases Nat.lt_or_ge n 0x10000 with h3 | h3
  · rw [encodeChar_three h2 h3]; intro b hb
    simp only [List.mem_cons, List.not_mem_nil, or_false] at hb
    rcases hb with rfl | rfl | rfl <;> omega
  · rw [encodeChar_four h3]; intro b hb
    simp only [List.mem_cons, List.not_mem_nil, or_false] at hb
    rcases hb with rfl | rfl | rfl | rfl <;> omega

theorem isScalar_iff (n : Nat) :
    isScalar n = true ↔ (n < 0x110000 ∧ (n < 0xD800 ∨ 0xDFFF < n)) := by
  simp only [isScalar, Bool.and_eq_true, decide_eq_true_eq, Bool.not_eq_true',
    Bool.and_eq_false_iff, decide_eq_false_iff_not]
  omega

theorem contB_true {b : Nat} (h1 : 0x80 ≤ b) (h2 : b ≤ 0xBF) : contB b = true := by
  simp only [contB, Bool.and_eq_true, decide_eq_true_eq]
  exact ⟨h1, h2⟩

theorem accept3_enc {n : Nat} (hs : isScalar n = true) (h1 : 0x800 ≤ n) (h2 : n < 0x10000) :
    accept3 (0xE0 + n / 4096) (0x80 + n / 64 % 64) = true := by
  have hs' := (isScalar_iff n).mp hs
  unfold accept3
  by_cases hE0 : (0xE0 + n / 4096 : Nat) = 0xE0
  · rw [if_pos hE0]
    simp only [Bool.and_eq_true, decide_eq_true_eq]
    omega
  · rw [if_neg hE0]
    by_cases hED : (0xE0 + n / 4096 : Nat) = 0xED
    · rw [if_pos hED]
      simp only [Bool.and_eq_true, decide_eq_true_eq]
      omega
    · rw [if_neg hED]
      exact contB_true (by omega) (by omega)

theorem accept4_enc {n : Nat} (hs : isScalar n = true) (h1 : 0x10000 ≤ n) :
    accept4 (0xF0 + n / 262144) (0x80 + n / 4096 % 64) = true := by
  have hs' := (isScalar_iff n).mp hs
  unfold accept4
  by_cases hF0 : (0xF0 + n / 262144 : Nat) = 0xF0
  · rw [if_pos hF0]
    simp only [Bool.and_eq_true, decide_eq_true_eq]
    omega
  · rw [if_neg hF0]
    by_cases hF4 : (0xF0 + n / 262144 : Nat) = 0xF4
    · rw [if_pos hF4]
      simp only [Bool.and_eq_true, decide_eq_true_eq]
      omega
    · rw [if_neg hF4]
      exact contB_true (by omega) (by omega)

/-- Decoding an encoded scalar (with arbitrary trailing bytes) recovers the
scalar and consumes exactly its encoding. -/
theorem decodeRune_encodeChar {n : Nat} (hs : isScalar n = true) (tail : List Nat) :
    decodeRune (encodeChar n ++ tail) = (n, (encodeChar n).length) := by
  have hs' := (isScalar_iff n).mp hs
  rcases Nat.lt_or_ge n 0x80 with h1 | h1
  · rw [encodeChar_one h1]
    simp only [List.cons_append, List.nil_append, decodeRune, if_pos h1, List.length_cons,
      List.length_nil]
  rcases Nat.lt_or_ge n 0x800 with h2 | h2
  · rw [encodeChar_two h1 h2]
    simp only [List.cons_append, List.nil_append, decodeRune]
    rw [if_neg (by omega), if_neg (by omega), if_pos (by omega),
      if_pos (contB_true (by omega) (by omega))]
    simp only [List.length_cons, List.length_nil]
    congr 1
    omega
  rcases Nat.lt_or_ge n 0x10000 with h3 | h3
  · rw [encodeChar_three h2 h3]
    simp only [List.cons_append, List.nil_append, decodeRune]
    rw [if_neg (by omega), if_neg (by omega), if_neg (by omega), if_pos (by omega)]
    rw [if_pos (by rw [accept3_enc hs h2 h3, contB_true (by omega) (by omega)]; rfl)]
    simp only [List.length_cons, List.length_nil]
    congr 1
    omega
  · rw [encodeChar_four h3]
    simp only [List.cons_append, List.nil_append, decodeRune]
    rw [if_neg (by omega), if_neg (by omega), if_neg (by omega), if_neg (by omega),
      if_pos (by omega)]
    rw [if_pos (by
      rw [accept4_enc hs h3, contB_true (by omega) (by omega),
        contB_true (by omega) (by omega)]; rfl)]
    simp only [List.length_cons, List.length_nil]
    congr 1
    omega

/-! ### Facts about the backwards scan -/

theorem findStartAux_found (s : List Nat) (lim i : Nat)
    (h : runeStart (s.getD i 0) = true) : findStartAux s lim i = i := by
  cases i <;> (simp only [findStartAux]; rw [if_pos h])

theorem findStartAux_step (s : List Nat) (lim i : Nat)
    (h : runeStart (s.getD (i + 1) 0) = false) (hl : lim < i + 1) :
    findStartAux s lim (i + 1) = findStartAux s lim i := by
  simp only [findStartAux, h, Bool.false_eq_true, if_false]
  rw [if_neg (by omega)]

theorem findStartAux_exit (s : List Nat) (lim : Nat)
    (h : runeStart (s.getD lim 0) = false) (hl : 1 ≤ lim) :
    findStartAux s lim lim = lim - 1 := by
  rcases lim with _ | l
  · omega
  · simp only [findStartAux, h, Bool.false_eq_true, if_false]
    rw [if_pos (by omega)]

/-! ### Evaluating `decodeLastRune` on the shapes produced by truncation -/

theorem decodeLastRune_510 (s : List Nat) (h : s.length = 510) :
    decodeLastRune s =
      if s.getD 509 0 < 0x80 then (s.getD 509 0, 1)
      else
        (if findStartAux s 506 508 + (decodeRune (s.drop (findStartAux s 506 508))).2 = 510
         then decodeRune (s.drop (findStartAux s 506 508)) else (0xFFFD, 1)) := by
  unfold decodeLastRune
  rw [h]
  norm_num

theorem decodeLastRune_ascii (w : List Nat) (b : Nat) (hb : b < 0x80) :
    decodeLastRune (w ++ [b]) = (b, 1) := by
  have hlen : (w ++ [b]).length = w.length + 1 := by simp
  unfold decodeLastRune
  rw [if_neg (by omega)]
  have hg : (w ++ [b]).getD ((w ++ [b]).length - 1) 0 = b := by
    rw [hlen, Nat.add_sub_cancel, List.getD_append_right _ _ _ _ (by omega), Nat.sub_self]
    rfl
  simp only [hg]
  rw [if_pos hb]

/-- A 510-byte string ending in a complete multi-byte encoding decodes its
last rune. -/
theorem decodeLastRune_append_enc (w : List Nat) (r : Nat) (hs : isScalar r = true)
    (hr : 0x80 ≤ r) (hlen : (w ++ encodeChar r).length = 510) :
    decodeLastRune (w ++ encodeChar r) = (r, (encodeChar r).length) := by
  have hs' := (isScalar_iff r).mp hs
  rw [decodeLastRune_510 _ hlen]
  rcases Nat.lt_or_ge r 0x800 with h2 | h2
  · -- two bytes, lead byte at index 508
    rw [encodeChar_two hr h2] at hlen ⊢
    simp only [List.length_append, List.length_cons, List.length_nil] at hlen
    have hw : w.length = 508 := by omega
    have hg9 : (w ++ [0xC0 + r / 64, 0x80 + r % 64]).getD 509 0 = 0x80 + r % 64 := by
      rw [List.getD_append_right _ _ _ _ (by omega), hw]
      rfl
    have hg8 : (w ++ [0xC0 + r / 64, 0x80 + r % 64]).getD 508 0 = 0xC0 + r / 64 := by
      rw [List.getD_append_right _ _ _ _ (by omega), hw]
      rfl
    rw [if_neg (by omega)]
    rw [findStartAux_found _ _ _ (by rw [hg8]; exact runeStart_of_lead _ (by omega) (by omega))]
    have hdr : (w ++ [0xC0 + r / 64, 0x80 + r % 64]).drop 508 = [0xC0 + r / 64, 0x80 + r % 64] := by
      rw [← hw, List.drop_left]
    rw [hdr, ← List.append_nil [0xC0 + r / 64, 0x80 + r % 64], ← encodeChar_two hr h2,
      decodeRune_encodeChar hs]
    rw [encodeChar_two hr h2]
    simp
  rcases Nat.lt_or_ge r 0x10000 with h3 | h3
  · -- three bytes, lead byte at index 507
    rw [encodeChar_three h2 h3] at hlen ⊢
    simp only [List.length_append, List.length_cons, List.length_nil] at hlen
    have hw : w.length = 507 := by omega
    have hg9 : (w ++ [0xE0 + r / 4096, 0x80 + r / 64 % 64, 0x80 + r % 64]).getD 509 0
        = 0x80 + r % 64 := by
      rw [List.getD_append_right _ _ _ _ (by omega), hw]
      rfl
    have hg8 : (w ++ [0xE0 + r / 4096, 0x80 + r / 64 % 64, 0x80 + r % 64]).getD 508 0
        = 0x80 + r / 64 % 64 := by
      rw [List.getD_append_right _ _ _ _ (by omega), hw]
      rfl
    have hg7 : (w ++ [0xE0 + r / 4096, 0x80 + r / 64 % 64, 0x80 + r % 64]).getD 507 0
        = 0xE0 + r / 4096 := by
      rw [List.getD_append_right _ _ _ _ (by omega), hw]
      rfl
    rw [if_neg (by omega)]
    rw [show (508 : Nat) = 507 + 1 from rfl,
      findStartAux_step _ _ _ (by rw [hg8]; exact runeStart_cont _ (by omega) (by omega))
        (by omega),
      findStartAux_found _ _ _ (by rw [hg7]; exact runeStart_of_lead _ (by omega) (by omega))]
    have hdr : (w ++ [0xE0 + r / 4096, 0x80 + r / 64 % 64, 0x80 + r % 64]).drop 507
        = [0xE0 + r / 4096, 0x80 + r / 64 % 64, 0x80 + r % 64] := by
      rw [← hw, List.drop_left]
    rw [hdr, ← List.append_nil [0xE0 + r / 4096, 0x80 + r / 64 % 64, 0x80 + r % 64],
      ← encodeChar_three h2 h3, decodeRune_encodeChar hs]
    rw [encodeChar_three h2 h3]
    simp
  · -- four bytes, lead byte at index 506
    rw [encodeChar_four h3] at hlen ⊢
    simp only [List.length_append, List.length_cons, List.length_nil] at hlen
    have hw : w.length = 506 := by omega
    have hg9 : (w ++ [0xF0 + r / 262144, 0x80 + r / 4096 % 64, 0x80 + r / 64 % 64,
        0x80 + r % 64]).getD 509 0 = 0x80 + r % 64 := by
      rw [List.getD_append_right _ _ _ _ (by omega), hw]
      rfl
    have hg8 : (w ++ [0xF0 + r / 262144, 0x80 + r / 4096 % 64, 0x80 + r / 64 % 64,
        0x80 + r % 64]).getD 508 0 = 0x80 + r / 64 % 64 := by
      rw [List.getD_append_right _ _ _ _ (by omega), hw]
      rfl
    have hg7 : (w ++ [0xF0 + r / 262144, 0x80 + r / 4096 % 64, 0x80 + r / 64 % 64,
        0x80 + r % 64]).getD 507 0 = 0x80 + r / 4096 % 64 := by
      rw [List.getD_append_right _ _ _ _ (by omega), hw]
      rfl
    have hg6 : (w ++ [0xF0 + r / 262144, 0x80 + r / 4096 % 64, 0x80 + r / 64 % 64,
        0x80 + r % 64]).getD 506 0 = 0xF0 + r / 262144 := by
      rw [List.getD_append_right _ _ _ _ (by omega), hw]
      rfl
    rw [if_neg (by omega)]
    rw [show (508 : Nat) = 507 + 1 from rfl,
      findStartAux_step _ _ _ (by rw [hg8]; exact runeStart_cont _ (by omega) (by omega))
        (by omega),
      show (507 : Nat) = 506 + 1 from rfl,
      findStartAux_step _ _ _ (by rw [hg7]; exact runeStart_cont _ (by omega) (by omega))
        (by omega),
      findStartAux_found _ _ _ (by rw [hg6]; exact runeStart_of_lead _ (by omega) (by omega))]
    have hdr : (w ++ [0xF0 + r / 262144, 0x80 + r / 4096 % 64, 0x80 + r / 64 % 64,
        0x80 + r % 64]).drop 506
        = [0xF0 + r / 262144, 0x80 + r / 4096 % 64, 0x80 + r / 64 % 64, 0x80 + r % 64] := by
      rw [← hw, List.drop_left]
    rw [hdr, ← List.append_nil [0xF0 + r / 262144, 0x80 + r / 4096 % 64, 0x80 + r / 64 % 64,
        0x80 + r % 64], ← encodeChar_four h3, decodeRune_encodeChar hs]
    rw [encodeChar_four h3]
    simp

/-- A 510-byte string consisting of encoded runes followed by one stray
lead byte: the backwards scan lands inside or before the stray byte and the
final size check fails, so Go reports `RuneError`. -/
theorem decodeLastRune_enc_single (rs : List Nat) (b : Nat)
    (hsc : ∀ r ∈ rs, isScalar r = true) (hb : 0xC0 ≤ b) (hb2 : b < 256)
    (hlen : (encodeStr rs ++ [b]).length = 510) :
    decodeLastRune (encodeStr rs ++ [b]) = (0xFFFD, 1) := by
  have hw : (encodeStr rs).length = 509 := by
    simp only [List.length_append, List.length_cons, List.length_nil] at hlen
    omega
  rcases List.eq_nil_or_concat rs with rfl | ⟨rs0, r, rfl⟩
  · simp [encodeStr] at hw
  rw [List.concat_eq_append, encodeStr_append] at hw ⊢
  rw [List.append_assoc]
  set w0 := encodeStr rs0 with hw0
  have hr : isScalar r = true := hsc r (by simp)
  have hr' := (isScalar_iff r).mp hr
  have hs0 : ∀ x ∈ rs0, isScalar x = true := fun x hx => hsc x (by simp [hx])
  have hlen' : (w0 ++ (encodeStr [r] ++ [b])).length = 510 := by
    rw [← List.append_assoc, ← encodeStr_append]
    simpa using hlen
  have henc : encodeStr [r] = encodeChar r := by simp [encodeStr]
  rw [henc] at hlen' ⊢
  rw [decodeLastRune_510 _ hlen']
  rcases Nat.lt_or_ge r 0x80 with h1 | h1
  · -- previous rune is ASCII: scan stops at index 508, size check 509 ≠ 510
    rw [encodeChar_one h1] at hlen' ⊢
    have hl0 : w0.length = 508 := by
      simp only [List.length_append, List.length_cons, List.length_nil] at hlen'
      omega
    have hg9 : (w0 ++ ([r] ++ [b])).getD 509 0 = b := by
      rw [List.getD_append_right _ _ _ _ (by omega), hl0]
      rfl
    have hg8 : (w0 ++ ([r] ++ [b])).getD 508 0 = r := by
      rw [List.getD_append_right _ _ _ _ (by omega), hl0]
      rfl
    rw [if_neg (by omega)]
    rw [findStartAux_found _ _ _ (by rw [hg8]; exact runeStart_of_lt _ h1)]
    have hdr : (w0 ++ ([r] ++ [b])).drop 508 = [r] ++ [b] := by
      rw [← hl0, List.drop_left]
    rw [hdr, show ([r] ++ [b] : List Nat) = encodeChar r ++ [b] by rw [encodeChar_one h1],
      decodeRune_encodeChar hr, encodeChar_one h1]
    norm_num
  rcases Nat.lt_or_ge r 0x800 with h2 | h2
  · -- previous rune is 2 bytes: lead at 507
    rw [encodeChar_two h1 h2] at hlen' ⊢
    have hl0 : w0.length = 507 := by
      simp only [List.length_append, List.length_cons, List.length_nil] at hlen'
      omega
    have hg9 : (w0 ++ ([0xC0 + r / 64, 0x80 + r % 64] ++ [b])).getD 509 0 = b := by
      rw [List.getD_append_right _ _ _ _ (by omega), hl0]
      rfl
    have hg8 : (w0 ++ ([0xC0 + r / 64, 0x80 + r % 64] ++ [b])).getD 508 0 = 0x80 + r % 64 := by
      rw [List.getD_append_right _ _ _ _ (by omega), hl0]
      rfl
    have hg7 : (w0 ++ ([0xC0 + r / 64, 0x80 + r % 64] ++ [b])).getD 507 0 = 0xC0 + r / 64 := by
      rw [List.getD_append_right _ _ _ _ (by omega), hl0]
      rfl
    rw [if_neg (by omega)]
    rw [show (508 : Nat) = 507 + 1 from rfl,
      findStartAux_step _ _ _ (by rw [hg8]; exact runeStart_cont _ (by omega) (by omega))
        (by omega),
      findStartAux_found _ _ _ (by rw [hg7]; exact runeStart_of_lead _ (by omega) (by omega))]
    have hdr : (w0 ++ ([0xC0 + r / 64, 0x80 + r % 64] ++ [b])).drop 507
        = [0xC0 + r / 64, 0x80 + r % 64] ++ [b] := by
      rw [← hl0, List.drop_left]
    rw [hdr, show ([0xC0 + r / 64, 0x80 + r % 64] ++ [b] : List Nat) = encodeChar r ++ [b] by
        rw [encodeChar_two h1 h2],
      decodeRune_encodeChar hr, encodeChar_two h1 h2]
    norm_num
  rcases Nat.lt_or_ge r 0x10000 with h3 | h3
  · -- previous rune is 3 bytes: lead at 506 (= lim), still found
    rw [encodeChar_three h2 h3] at hlen' ⊢
    have hl0 : w0.length = 506 := by
      simp only [List.length_append, List.length_cons, List.length_nil] at hlen'
      omega
    have hg9 : (w0 ++ ([0xE0 + r / 4096, 0x80 + r / 64 % 64, 0x80 + r % 64] ++ [b])).getD 509 0
        = b := by
      rw [List.getD_append_right _ _ _ _ (by omega), hl0]
      rfl
    have hg8 : (w0 ++ ([0xE0 + r / 4096, 0x80 + r / 64 % 64, 0x80 + r % 64] ++ [b])).getD 508 0
        = 0x80 + r % 64 := by
      rw [List.getD_append_right _ _ _ _ (by omega), hl0]
      rfl
    have hg7 : (w0 ++ ([0xE0 + r / 4096, 0x80 + r / 64 % 64, 0x80 + r % 64] ++ [b])).getD 507 0
        = 0x80 + r / 64 % 64 := by
      rw [List.getD_append_right _ _ _ _ (by omega), hl0]
      rfl
    have hg6 : (w0 ++ ([0xE0 + r / 4096, 0x80 + r / 64 % 64, 0x80 + r % 64] ++ [b])).getD 506 0
        = 0xE0 + r / 4096 := by
      rw [List.getD_append_right _ _ _ _ (by omega), hl0]
      rfl
    rw [if_neg (by omega)]
    rw [show (508 : Nat) = 507 + 1 from rfl,
      findStartAux_step _ _ _ (by rw [hg8]; exact runeStart_cont _ (by omega) (by omega))
        (by omega),
      show (507 : Nat) = 506 + 1 from rfl,
      findStartAux_step _ _ _ (by rw [hg7]; exact runeStart_cont _ (by omega) (by omega))
        (by omega),
      findStartAux_found _ _ _ (by rw [hg6]; exact runeStart_of_lead _ (by omega) (by omega))]
    have hdr : (w0 ++ ([0xE0 + r / 4096, 0x80 + r / 64 % 64, 0x80 + r % 64] ++ [b])).drop 506
        = [0xE0 + r / 4096, 0x80 + r / 64 % 64, 0x80 + r % 64] ++ [b] := by
      rw [← hl0, List.drop_left]
    rw [hdr, show ([0xE0 + r / 4096, 0x80 + r / 64 % 64, 0x80 + r % 64] ++ [b] : List Nat)
        = encodeChar r ++ [b] by rw [encodeChar_three h2 h3],
      decodeRune_encodeChar hr, encodeChar_three h2 h3]
    norm_num
  · -- previous rune is 4 bytes: no rune start in the window, Go exits at lim - 1 = 505
    rw [encodeChar_four h3] at hlen' ⊢
    have hl0 : w0.length = 505 := by
      simp only [List.length_append, List.length_cons, List.length_nil] at hlen'
      omega
    have hg9 : (w0 ++ ([0xF0 + r / 262144, 0x80 + r / 4096 % 64, 0x80 + r / 64 % 64,
        0x80 + r % 64] ++ [b])).getD 509 0 = b := by
      rw [List.getD_append_right _ _ _ _ (by omega), hl0]
      rfl
    have hg8 : (w0 ++ ([0xF0 + r / 262144, 0x80 + r / 4096 % 64, 0x80 + r / 64 % 64,
        0x80 + r % 64] ++ [b])).getD 508 0 = 0x80 + r % 64 := by
      rw [List.getD_append_right _ _ _ _ (by omega), hl0]
      rfl
    have hg7 : (w0 ++ ([0xF0 + r / 262144, 0x80 + r / 4096 % 64, 0x80 + r / 64 % 64,
        0x80 + r % 64] ++ [b])).getD 507 0 = 0x80 + r / 64 % 64 := by
      rw [List.getD_append_right _ _ _ _ (by omega), hl0]
      rfl
    have hg6 : (w0 ++ ([0xF0 + r / 262144, 0x80 + r / 4096 % 64, 0x80 + r / 64 % 64,
        0x80 + r % 64] ++ [b])).getD 506 0 = 0x80 + r / 4096 % 64 := by
      rw [List.getD_append_right _ _ _ _ (by omega), hl0]
      rfl
    rw [if_neg (by omega)]
    rw [show (508 : Nat) = 507 + 1 from rfl,
      findStartAux_step _ _ _ (by rw [hg8]; exact runeStart_cont _ (by omega) (by omega))
        (by omega),
      show (507 : Nat) = 506 + 1 from rfl,
      findStartAux_step _ _ _ (by rw [hg7]; exact runeStart_cont _ (by omega) (by omega))
        (by omega),
      findStartAux_exit _ _ (by rw [hg6]; exact runeStart_cont _ (by omega) (by omega))
        (by omega)]
    have hdr : (w0 ++ ([0xF0 + r / 262144, 0x80 + r / 4096 % 64, 0x80 + r / 64 % 64,
        0x80 + r % 64] ++ [b])).drop (506 - 1)
        = [0xF0 + r / 262144, 0x80 + r / 4096 % 64, 0x80 + r / 64 % 64, 0x80 + r % 64]
          ++ [b] := by
      rw [show (506 - 1 : Nat) = 505 from rfl, ← hl0, List.drop_left]
    rw [hdr, show ([0xF0 + r / 262144, 0x80 + r / 4096 % 64, 0x80 + r / 64 % 64, 0x80 + r % 64]
        ++ [b] : List Nat) = encodeChar r ++ [b] by rw [encodeChar_four h3],
      decodeRune_encodeChar hr, encodeChar_four h3]
    norm_num

/-- A 510-byte string ending in a stray lead byte `x` plus one continuation
byte `y` where `[x, y]` does not decode with size 2 (a truncated 3- or
4-byte sequence): the scan stops at `x` (index 508) and the size check
fails. -/
theorem decodeLastRune_tail2 (w : List Nat) (x y : Nat)
    (hx : 0xC0 ≤ x) (hx2 : x < 256) (hy : 0x80 ≤ y) (hy2 : y ≤ 0xBF)
    (hsz : (decodeRune [x, y]).2 = 1)
    (hlen : (w ++ [x, y]).length = 510) :
    decodeLastRune (w ++ [x, y]) = (0xFFFD, 1) := by
  have hl0 : w.length = 508 := by
    simp only [List.length_append, List.length_cons, List.length_nil] at hlen
    omega
  have hg9 : (w ++ [x, y]).getD 509 0 = y := by
    rw [List.getD_append_right _ _ _ _ (by omega), hl0]
    rfl
  have hg8 : (w ++ [x, y]).getD 508 0 = x := by
    rw [List.getD_append_right _ _ _ _ (by omega), hl0]
    rfl
  rw [decodeLastRune_510 _ hlen]
  rw [if_neg (by omega)]
  rw [findStartAux_found _ _ _ (by rw [hg8]; exact runeStart_of_lead _ hx hx2)]
  have hdr : (w ++ [x, y]).drop 508 = [x, y] := by
    rw [← hl0, List.drop_left]
  rw [hdr, if_neg (by omega)]

/-- A 510-byte string ending in a stray lead byte `x` plus two continuation
bytes (a truncated 4-byte sequence): the scan stops at `x` (index 507) and
the size check fails. -/
theorem decodeLastRune_tail3 (w : List Nat) (x y z : Nat)
    (hx : 0xC0 ≤ x) (hx2 : x < 256) (hy : 0x80 ≤ y) (hy2 : y ≤ 0xBF)
    (hz : 0x80 ≤ z) (hz2 : z ≤ 0xBF)
    (hsz : (decodeRune [x, y, z]).2 = 1)
    (hlen : (w ++ [x, y, z]).length = 510) :
    decodeLastRune (w ++ [x, y, z]) = (0xFFFD, 1) := by
  have hl0 : w.length = 507 := by
    simp only [List.length_append, List.length_cons, List.length_nil] at hlen
    omega
  have hg9 : (w ++ [x, y, z]).getD 509 0 = z := by
    rw [List.getD_append_right _ _ _ _ (by omega), hl0]
    rfl
  have hg8 : (w ++ [x, y, z]).getD 508 0 = y := by
    rw [List.getD_append_right _ _ _ _ (by omega), hl0]
    rfl
  have hg7 : (w ++ [x, y, z]).getD 507 0 = x := by
    rw [List.getD_append_right _ _ _ _ (by omega), hl0]
    rfl
  rw [decodeLastRune_510 _ hlen]
  rw [if_neg (by omega)]
  rw [show (508 : Nat) = 507 + 1 from rfl,
    findStartAux_step _ _ _ (by rw [hg8]; exact runeStart_cont _ hy hy2) (by omega),
    findStartAux_found _ _ _ (by rw [hg7]; exact runeStart_of_lead _ hx hx2)]
  have hdr : (w ++ [x, y, z]).drop 507 = [x, y, z] := by
    rw [← hl0, List.drop_left]
  rw [hdr, if_neg (by omega)]

/-! ### The byte filter on encoded strings -/

/-- Removing NUL/CR/LF bytes from an encoded string removes exactly the
runes NUL/CR/LF (multi-byte encodings contain no byte below `0x80`). -/
theorem filter_encodeStr (rs : List Nat) (hsc : ∀ r ∈ rs, isScalar r = true) :
    (encodeStr rs).filter (fun c => !(c == 0 || c == 13 || c == 10))
      = encodeStr (rs.filter (fun c => !(c == 0 || c == 13 || c == 10))) := by
  induction rs with
  | nil => rfl
  | cons r rest ih =>
    have hrest : ∀ x ∈ rest, isScalar x = true := fun x hx => hsc x (by simp [hx])
    rw [encodeStr_cons, List.filter_append, ih hrest, List.filter_cons]
    rcases Nat.lt_or_ge r 0x80 with h1 | h1
    · rw [encodeChar_one h1]
      by_cases hk : (!(r == 0 || r == 13 || r == 10)) = true
      · rw [if_pos hk, List.filter_cons, if_pos hk, List.filter_nil, encodeStr_cons,
          encodeChar_one h1]
        try rfl
      · rw [if_neg hk, List.filter_cons,
          if_neg hk, List.filter_nil]
        try rfl
    · have hall : (encodeChar r).filter (fun c => !(c == 0 || c == 13 || c == 10))
          = encodeChar r := by
        rw [List.filter_eq_self]
        intro b hb
        have := encodeChar_bytes_ge h1 b hb
        simp only [Bool.or_eq_true, beq_iff_eq, Bool.not_eq_true', Bool.or_eq_false_iff,
          beq_eq_false_iff_ne, ne_eq]
        omega
      have hkr : (!(r == 0 || r == 13 || r == 10)) = true := by
        simp only [Bool.or_eq_true, beq_iff_eq, Bool.not_eq_true', Bool.or_eq_false_iff,
          beq_eq_false_iff_ne, ne_eq]
        omega
      rw [hall, if_pos hkr, encodeStr_cons]

/-- Filtering preserves the scalar invariant. -/
theorem filter_scalar (rs : List Nat) (hsc : ∀ r ∈ rs, isScalar r = true)
    (p : Nat → Bool) : ∀ r ∈ rs.filter p, isScalar r = true :=
  fun r hr => hsc r (List.mem_of_mem_filter hr)

/-! ### Splitting a truncated encoded string -/

/-- Taking `n` bytes of an encoded string yields some whole runes plus a
(possibly empty) strict prefix of one more rune's encoding. -/
theorem take_encodeStr (rs : List Nat) (hsc : ∀ r ∈ rs, isScalar r = true) (n : Nat) :
    (∃ rs1, (∀ x ∈ rs1, isScalar x = true) ∧ (encodeStr rs).take n = encodeStr rs1) ∨
    (∃ rs1 r k, (∀ x ∈ rs1, isScalar x = true) ∧ isScalar r = true ∧
      0 < k ∧ k < (encodeChar r).length ∧
      (encodeStr rs).take n = encodeStr rs1 ++ (encodeChar r).take k) := by
  induction rs generalizing n with
  | nil =>
    left
    exact ⟨[], by simp, by simp [encodeStr]⟩
  | cons r rest ih =>
    have hr : isScalar r = true := hsc r (by simp)
    have hrest : ∀ x ∈ rest, isScalar x = true := fun x hx => hsc x (by simp [hx])
    rw [encodeStr_cons]
    rcases Nat.lt_or_ge n (encodeChar r).length with hn | hn
    · rcases Nat.eq_zero_or_pos n with rfl | hpos
      · left
        exact ⟨[], by simp, by simp [encodeStr]⟩
      · right
        refine ⟨[], r, n, by simp, hr, hpos, hn, ?_⟩
        rw [List.take_append_of_le_length (by omega), encodeStr_nil, List.nil_append]
    · rw [show n = (encodeChar r).length + (n - (encodeChar r).length) by omega,
        List.take_append]
      rcases ih hrest (n - (encodeChar r).length) with ⟨rs1, h1, heq⟩ | ⟨rs1, r', k, h1, h2, h3, h4, heq⟩
      · left
        refine ⟨r :: rs1, ?_, ?_⟩
        · intro x hx
          rcases List.mem_cons.mp hx with rfl | hx
          · exact hr
          · exact h1 x hx
        · rw [heq, encodeStr_cons]
      · right
        refine ⟨r :: rs1, r', k, ?_, h2, h3, h4, ?_⟩
        · intro x hx
          rcases List.mem_cons.mp hx with rfl | hx
          · exact hr
          · exact h1 x hx
        · rw [heq, encodeStr_cons, List.append_assoc]

theorem encodeStr_singleton (r : Nat) : encodeStr [r] = encodeChar r := by
  simp [encodeStr]

theorem decodeRune_two_short (x y : Nat) (h0 : 0xE0 ≤ x) (h1 : x ≤ 0xF4) :
    decodeRune [x, y] = (0xFFFD, 1) := by
  simp only [decodeRune]
  rw [if_neg (by omega), if_neg (by omega), if_neg (by omega)]
  by_cases hE : x ≤ 0xEF
  · rw [if_pos hE]
  · rw [if_neg hE, if_pos (by omega)]

theorem decodeRune_three_short (x y z : Nat) (h0 : 0xF0 ≤ x) (h1 : x ≤ 0xF4) :
    decodeRune [x, y, z] = (0xFFFD, 1) := by
  simp only [decodeRune]
  rw [if_neg (by omega), if_neg (by omega), if_neg (by omega), if_neg (by omega),
    if_pos h1]

/-- `filterMessage` with the local definitions expanded. -/
theorem filterMessage_eq (text : List Nat) :
    filterMessage text =
      (if 510 < (text.filter (fun c => !(c == 0 || c == 13 || c == 10))).length then
        (if (decodeLastRune ((text.filter (fun c => !(c == 0 || c == 13 || c == 10))).take 510)).1
            = 0xFFFD then
          (if runeStart (((text.filter (fun c => !(c == 0 || c == 13 || c == 10))).take 510).getD
              509 0) then
            ((text.filter (fun c => !(c == 0 || c == 13 || c == 10))).take 510).take 509
          else if runeStart (((text.filter
              (fun c => !(c == 0 || c == 13 || c == 10))).take 510).getD 508 0) then
            ((text.filter (fun c => !(c == 0 || c == 13 || c == 10))).take 510).take 508
          else if runeStart (((text.filter
              (fun c => !(c == 0 || c == 13 || c == 10))).take 510).getD 507 0) then
            ((text.filter (fun c => !(c == 0 || c == 13 || c == 10))).take 510).take 507
          else if runeStart (((text.filter
              (fun c => !(c == 0 || c == 13 || c == 10))).take 510).getD 506 0) then
            ((text.filter (fun c => !(c == 0 || c == 13 || c == 10))).take 510).take 506
          else (text.filter (fun c => !(c == 0 || c == 13 || c == 10))).take 510)
        else (text.filter (fun c => !(c == 0 || c == 13 || c == 10))).take 510)
      else text.filter (fun c => !(c == 0 || c == 13 || c == 10))) := rfl

/-- The heart of claim C1: `filterMessage` preserves UTF-8 validity. -/
theorem filterMessage_utf8 {s : List Nat} (hv : Utf8Valid s) :
    Utf8Valid (filterMessage s) := by
  obtain ⟨rs, hsc, rfl⟩ := hv
  rw [filterMessage_eq]
  rw [filter_encodeStr rs hsc]
  have hsc' : ∀ r ∈ rs.filter (fun c => !(c == 0 || c == 13 || c == 10)), isScalar r = true :=
    filter_scalar rs hsc _
  set rs' := rs.filter (fun c => !(c == 0 || c == 13 || c == 10)) with hrs'
  by_cases h510 : 510 < (encodeStr rs').length
  case neg =>
    rw [if_neg h510]
    exact ⟨rs', hsc', rfl⟩
  case pos =>
    rw [if_pos h510]
    have hlen510 : ((encodeStr rs').take 510).length = 510 := by
      rw [List.length_take]
      omega
    rcases take_encodeStr rs' hsc' 510 with ⟨rs1, h1, heq⟩ |
      ⟨rs1, r, k, h1, h2, h3, h4, heq⟩
    · -- the truncation falls exactly on a rune boundary
      rw [heq] at hlen510 ⊢
      rcases List.eq_nil_or_concat rs1 with rfl | ⟨rs0, rl, rfl⟩
      · rw [show encodeStr [] = [] from rfl] at hlen510
        simp at hlen510
      rw [List.concat_eq_append, encodeStr_append, encodeStr_singleton] at hlen510 ⊢
      have h0 : ∀ x ∈ rs0, isScalar x = true := fun x hx => h1 x (by simp [hx])
      have hrl : isScalar rl = true := h1 rl (by simp)
      rcases Nat.lt_or_ge rl 0x80 with ha | ha
      · -- last rune ASCII: no RuneError, no re-truncation
        rw [encodeChar_one ha] at hlen510 ⊢
        rw [decodeLastRune_ascii _ _ ha]
        rw [if_neg (by simp; omega)]
        exact ⟨rs0 ++ [rl], by
          intro x hx
          rcases List.mem_append.mp hx with hx | hx
          · exact h0 x hx
          · simp at hx
            subst hx
            exact hrl, by rw [encodeStr_append, encodeStr_singleton, encodeChar_one ha]⟩
      · rw [decodeLastRune_append_enc _ _ hrl ha hlen510]
        by_cases hfffd : rl = 0xFFFD
        · -- the last rune is a literal U+FFFD: Go still re-truncates, dropping it
          subst hfffd
          rw [if_pos (by rfl)]
          have hencf : encodeChar 0xFFFD = [0xEF, 0xBF, 0xBD] := by decide
          rw [hencf] at hlen510 ⊢
          have hl0 : (encodeStr rs0).length = 507 := by
            simp only [List.length_append, List.length_cons, List.length_nil] at hlen510
            omega
          have hg9 : (encodeStr rs0 ++ [0xEF, 0xBF, 0xBD]).getD 509 0 = 0xBD := by
            rw [List.getD_append_right _ _ _ _ (by omega), hl0]
            rfl
          have hg8 : (encodeStr rs0 ++ [0xEF, 0xBF, 0xBD]).getD 508 0 = 0xBF := by
            rw [List.getD_append_right _ _ _ _ (by omega), hl0]
            rfl
          have hg7 : (encodeStr rs0 ++ [0xEF, 0xBF, 0xBD]).getD 507 0 = 0xEF := by
            rw [List.getD_append_right _ _ _ _ (by omega), hl0]
            rfl
          rw [hg9, hg8, hg7]
          rw [if_neg (by decide), if_neg (by decide), if_pos (by decide)]
          rw [show (507 : Nat) = (encodeStr rs0).length from hl0.symm, List.take_left]
          exact ⟨rs0, h0, rfl⟩
        · -- ordinary multi-byte last rune: keep the 510-byte truncation
          rw [if_neg (by simpa using hfffd)]
          exact ⟨rs0 ++ [rl], by
            intro x hx
            rcases List.mem_append.mp hx with hx | hx
            · exact h0 x hx
            · simp at hx
              subst hx
              exact hrl, by rw [encodeStr_append, encodeStr_singleton]⟩
    · -- the truncation splits a rune: Go drops the partial rune
      rw [heq] at hlen510 ⊢
      have hge : 0x80 ≤ r := by
        by_contra hlt
        rw [encodeChar_one (by omega)] at h4
        simp at h4
        omega
      rcases Nat.lt_or_ge r 0x800 with hb | hb
      · -- partial 2-byte rune: k = 1, the stray byte is the lead
        have hk1 : k = 1 := by
          rw [encodeChar_two hge hb] at h4
          simp at h4
          omega
        subst hk1
        have htk : (encodeChar r).take 1 = [0xC0 + r / 64] := by
          rw [encodeChar_two hge hb]
          rfl
        rw [htk] at hlen510 ⊢
        rw [decodeLastRune_enc_single rs1 _ h1 (by omega) (by omega) hlen510]
        rw [if_pos (by rfl)]
        have hl0 : (encodeStr rs1).length = 509 := by
          simp only [List.length_append, List.length_cons, List.length_nil] at hlen510
          omega
        have hg9 : (encodeStr rs1 ++ [0xC0 + r / 64]).getD 509 0 = 0xC0 + r / 64 := by
          rw [List.getD_append_right _ _ _ _ (by omega), hl0]
          rfl
        rw [hg9, if_pos (runeStart_of_lead _ (by omega) (by omega))]
        rw [show (509 : Nat) = (encodeStr rs1).length from hl0.symm, List.take_left]
        exact ⟨rs1, h1, rfl⟩
      rcases Nat.lt_or_ge r 0x10000 with hc | hc
      · -- partial 3-byte rune: k = 1 or k = 2
        have hk12 : k = 1 ∨ k = 2 := by
          rw [encodeChar_three hb hc] at h4
          simp at h4
          omega
        rcases hk12 with hk1 | hk2
        · subst hk1
          have htk : (encodeChar r).take 1 = [0xE0 + r / 4096] := by
            rw [encodeChar_three hb hc]
            rfl
          rw [htk] at hlen510 ⊢
          rw [decodeLastRune_enc_single rs1 _ h1 (by omega) (by omega) hlen510]
          rw [if_pos (by rfl)]
          have hl0 : (encodeStr rs1).length = 509 := by
            simp only [List.length_append, List.length_cons, List.length_nil] at hlen510
            omega
          have hg9 : (encodeStr rs1 ++ [0xE0 + r / 4096]).getD 509 0 = 0xE0 + r / 4096 := by
            rw [List.getD_append_right _ _ _ _ (by omega), hl0]
            rfl
          rw [hg9, if_pos (runeStart_of_lead _ (by omega) (by omega))]
          rw [show (509 : Nat) = (encodeStr rs1).length from hl0.symm, List.take_left]
          exact ⟨rs1, h1, rfl⟩
        · subst hk2
          have htk : (encodeChar r).take 2 = [0xE0 + r / 4096, 0x80 + r / 64 % 64] := by
            rw [encodeChar_three hb hc]
            rfl
          rw [htk] at hlen510 ⊢
          rw [decodeLastRune_tail2 _ _ _ (by omega) (by omega) (by omega) (by omega)
            (by rw [decodeRune_two_short _ _ (by omega) (by omega)]) hlen510]
          rw [if_pos (by rfl)]
          have hl0 : (encodeStr rs1).length = 508 := by
            simp only [List.length_append, List.length_cons, List.length_nil] at hlen510
            omega
          have hg9 : (encodeStr rs1 ++ [0xE0 + r / 4096, 0x80 + r / 64 % 64]).getD 509 0
              = 0x80 + r / 64 % 64 := by
            rw [List.getD_append_right _ _ _ _ (by omega), hl0]
            rfl
          have hg8 : (encodeStr rs1 ++ [0xE0 + r / 4096, 0x80 + r / 64 % 64]).getD 508 0
              = 0xE0 + r / 4096 := by
            rw [List.getD_append_right _ _ _ _ (by omega), hl0]
            rfl
          rw [hg9, hg8]
          rw [if_neg (by rw [runeStart_cont _ (by omega) (by omega)]; simp),
            if_pos (runeStart_of_lead _ (by omega) (by omega))]
          rw [show (508 : Nat) = (encodeStr rs1).length from hl0.symm, List.take_left]
          exact ⟨rs1, h1, rfl⟩
      · -- partial 4-byte rune: k = 1, 2 or 3
        have hsc4 := (isScalar_iff r).mp h2
        have hk123 : k = 1 ∨ k = 2 ∨ k = 3 := by
          rw [encodeChar_four hc] at h4
          simp at h4
          omega
        rcases hk123 with hk1 | hk2 | hk3
        · subst hk1
          have htk : (encodeChar r).take 1 = [0xF0 + r / 262144] := by
            rw [encodeChar_four hc]
            rfl
          rw [htk] at hlen510 ⊢
          rw [decodeLastRune_enc_single rs1 _ h1 (by omega) (by omega) hlen510]
          rw [if_pos (by rfl)]
          have hl0 : (encodeStr rs1).length = 509 := by
            simp only [List.length_append, List.length_cons, List.length_nil] at hlen510
            omega
          have hg9 : (encodeStr rs1 ++ [0xF0 + r / 262144]).getD 509 0 = 0xF0 + r / 262144 := by
            rw [List.getD_append_right _ _ _ _ (by omega), hl0]
            rfl
          rw [hg9, if_pos (runeStart_of_lead _ (by omega) (by omega))]
          rw [show (509 : Nat) = (encodeStr rs1).length from hl0.symm, List.take_left]
          exact ⟨rs1, h1, rfl⟩
        · subst hk2
          have htk : (encodeChar r).take 2 = [0xF0 + r / 262144, 0x80 + r / 4096 % 64] := by
            rw [encodeChar_four hc]
            rfl
          rw [htk] at hlen510 ⊢
          rw [decodeLastRune_tail2 _ _ _ (by omega) (by omega) (by omega) (by omega)
            (by rw [decodeRune_two_short _ _ (by omega) (by omega)]) hlen510]
          rw [if_pos (by rfl)]
          have hl0 : (encodeStr rs1).length = 508 := by
            simp only [List.length_append, List.length_cons, List.length_nil] at hlen510
            omega
          have hg9 : (encodeStr rs1 ++ [0xF0 + r / 262144, 0x80 + r / 4096 % 64]).getD 509 0
              = 0x80 + r / 4096 % 64 := by
            rw [List.getD_append_right _ _ _ _ (by omega), hl0]
            rfl
          have hg8 : (encodeStr rs1 ++ [0xF0 + r / 262144, 0x80 + r / 4096 % 64]).getD 508 0
              = 0xF0 + r / 262144 := by
            rw [List.getD_append_right _ _ _ _ (by omega), hl0]
            rfl
          rw [hg9, hg8]
          rw [if_neg (by rw [runeStart_cont _ (by omega) (by omega)]; simp),
            if_pos (runeStart_of_lead _ (by omega) (by omega))]
          rw [show (508 : Nat) = (encodeStr rs1).length from hl0.symm, List.take_left]
          exact ⟨rs1, h1, rfl⟩
        · subst hk3
          have htk : (encodeChar r).take 3
              = [0xF0 + r / 262144, 0x80 + r / 4096 % 64, 0x80 + r / 64 % 64] := by
            rw [encodeChar_four hc]
            rfl
          rw [htk] at hlen510 ⊢
          rw [decodeLastRune_tail3 _ _ _ _ (by omega) (by omega) (by omega) (by omega)
            (by omega) (by omega)
            (by rw [decodeRune_three_short _ _ _ (by omega) (by omega)]) hlen510]
          rw [if_pos (by rfl)]
          have hl0 : (encodeStr rs1).length = 507 := by
            simp only [List.length_append, List.length_cons, List.length_nil] at hlen510
            omega
          have hg9 : (encodeStr rs1 ++ [0xF0 + r / 262144, 0x80 + r / 4096 % 64,
              0x80 + r / 64 % 64]).getD 509 0 = 0x80 + r / 64 % 64 := by
            rw [List.getD_append_right _ _ _ _ (by omega), hl0]
            rfl
          have hg8 : (encodeStr rs1 ++ [0xF0 + r / 262144, 0x80 + r / 4096 % 64,
              0x80 + r / 64 % 64]).getD 508 0 = 0x80 + r / 4096 % 64 := by
            rw [List.getD_append_right _ _ _ _ (by omega), hl0]
            rfl
          have hg7 : (encodeStr rs1 ++ [0xF0 + r / 262144, 0x80 + r / 4096 % 64,
              0x80 + r / 64 % 64]).getD 507 0 = 0xF0 + r / 262144 := by
            rw [List.getD_append_right _ _ _ _ (by omega), hl0]
            rfl
          rw [hg9, hg8, hg7]
          rw [if_neg (by rw [runeStart_cont _ (by omega) (by omega)]; simp),
            if_neg (by rw [runeStart_cont _ (by omega) (by omega)]; simp),
            if_pos (runeStart_of_lead _ (by omega) (by omega))]
          rw [show (507 : Nat) = (encodeStr rs1).length from hl0.symm, List.take_left]
          exact ⟨rs1, h1, rfl⟩

/-- No NUL, CR or LF byte survives `filterMessage`. -/
theorem filterMessage_no_bad (s : List Nat) :
    ∀ b ∈ filterMessage s, b ≠ 0 ∧ b ≠ 13 ∧ b ≠ 10 := by
  have key : ∀ b ∈ s.filter (fun c => !(c == 0 || c == 13 || c == 10)),
      b ≠ 0 ∧ b ≠ 13 ∧ b ≠ 10 := by
    intro b hb
    have hk := List.of_mem_filter hb
    simp only [Bool.or_eq_true, beq_iff_eq, Bool.not_eq_true', Bool.or_eq_false_iff,
      beq_eq_false_iff_ne, ne_eq] at hk
    exact ⟨hk.1.1, hk.1.2, hk.2⟩
  intro b hb
  rw [filterMessage_eq] at hb
  split_ifs at hb <;>
    first
      | exact key b hb
      | exact key b (List.take_subset _ _ hb)
      | exact key b (List.take_subset _ _ (List.take_subset _ _ hb))

/-- The output of `filterMessage` never exceeds 510 bytes. -/
theorem filterMessage_len (s : List Nat) : (filterMessage s).length ≤ 510 := by
  rw [filterMessage_eq]
  split_ifs <;> simp_all [List.length_take]

/-- `filterMessage` is the identity on clean, short strings. -/
theorem filterMessage_clean (s : List Nat)
    (h1 : ∀ b ∈ s, b ≠ 0 ∧ b ≠ 13 ∧ b ≠ 10) (h2 : s.length ≤ 510) :
    filterMessage s = s := by
  have hfil : s.filter (fun c => !(c == 0 || c == 13 || c == 10)) = s := by
    rw [List.filter_eq_self]
    intro b hb
    have := h1 b hb
    simp only [Bool.or_eq_true, beq_iff_eq, Bool.not_eq_true', Bool.or_eq_false_iff,
      beq_eq_false_iff_ne, ne_eq]
    exact ⟨⟨this.1, this.2.1⟩, this.2.2⟩
  rw [filterMessage_eq, hfil, if_neg (by omega)]

/-- C1: for every input, `filterMessage` outputs a string free of NUL, CR
and LF, at most 510 bytes long; and if the input was valid UTF-8 so is the
output (the truncation backs up to the last rune boundary within the last
4 bytes when it lands inside a rune). -/
theorem C1_filterMessage_spec (s : List Nat) :
    (∀ b ∈ filterMessage s, b ≠ 0 ∧ b ≠ 13 ∧ b ≠ 10) ∧
    (filterMessage s).length ≤ 510 ∧
    (Utf8Valid s → Utf8Valid (filterMessage s)) :=
  ⟨filterMessage_no_bad s, filterMessage_len s, filterMessage_utf8⟩

/-- Witness for C1 on the concrete input `"h\re?"` (with `é` for the
multi-byte rune): the hypothesis of the third conjunct is discharged
concretely. -/
theorem C1_filterMessage_spec_witness :
    Utf8Valid (encodeStr [104, 13, 233]) ∧
    (∀ b ∈ filterMessage (encodeStr [104, 13, 233]), b ≠ 0 ∧ b ≠ 13 ∧ b ≠ 10) ∧
    (filterMessage (encodeStr [104, 13, 233])).length ≤ 510 ∧
    Utf8Valid (filterMessage (encodeStr [104, 13, 233])) := by
  have hval : Utf8Valid (encodeStr [104, 13, 233]) := ⟨[104, 13, 233], by decide, rfl⟩
  exact ⟨hval, (C1_filterMessage_spec _).1, (C1_filterMessage_spec _).2.1,
    (C1_filterMessage_spec _).2.2 hval⟩

/-- C10: `filterMessage` is idempotent, and is the identity on every
string that is already clean (no NUL/CR/LF) and at most 510 bytes. -/
theorem C10_filterMessage_idempotent (s : List Nat) :
    filterMessage (filterMessage s) = filterMessage s ∧
    (∀ t : List Nat, (∀ b ∈ t, b ≠ 0 ∧ b ≠ 13 ∧ b ≠ 10) → t.length ≤ 510 →
      filterMessage t = t) :=
  ⟨filterMessage_clean _ (filterMessage_no_bad s) (filterMessage_len s),
    fun t h1 h2 => filterMessage_clean t h1 h2⟩

/-- Witness for C10: the inner identity statement applied to the concrete
clean string `"hi"`. -/
theorem C10_filterMessage_idempotent_witness :
    filterMessage (filterMessage [104, 0, 105]) = filterMessage [104, 0, 105] ∧
    filterMessage [104, 105] = [104, 105] :=
  ⟨(C10_filterMessage_idempotent [104, 0, 105]).1,
    (C10_filterMessage_idempotent []).2 [104, 105] (by decide) (by decide)⟩

/-! ## Message composition (`compose*`, byte level)

`strB` turns a Lean string literal into the UTF-8 bytes of the
corresponding Go string literal; `fmt.Sprintf` with `%s` verbs is plain
concatenation. -/

/-- The UTF-8 bytes of a string literal. -/
def strB (s : String) : List Nat := encodeStr (s.toList.map Char.toNat)

/-- `composePrivmsg`: `PRIVMSG <firstWord dst> :<firstLine msg>`, filtered. -/
def composePrivmsg (dst msg : List Nat) : List Nat :=
  filterMessage (strB "PRIVMSG " ++ firstWord dst ++ strB " :" ++ firstLine msg)

/-- `composeNotice`: `NOTICE <firstWord dst> :<firstLine msg>`, filtered. -/
def composeNotice (dst msg : List Nat) : List Nat :=
  filterMessage (strB "NOTICE " ++ firstWord dst ++ strB " :" ++ firstLine msg)

/-- `composeCTCP`: the payload is wrapped in `\x01` inside a PRIVMSG (or a
NOTICE for replies); an empty `msg` omits the space and remainder. -/
def composeCTCP (dst command msg : List Nat) (isReply : Bool) : List Nat :=
  let pfx := if isReply then strB "NOTICE" else strB "PRIVMSG"
  if msg = [] then
    filterMessage (pfx ++ strB " " ++ firstWord dst ++ strB " :" ++ [1] ++ firstWord command
      ++ [1])
  else
    filterMessage (pfx ++ strB " " ++ firstWord dst ++ strB " :" ++ [1] ++ firstWord command
      ++ strB " " ++ firstLine msg ++ [1])

/-- `composeQuit`: bare `QUIT`, or `QUIT :<firstLine msg>` filtered. -/
def composeQuit (msg : List Nat) : List Nat :=
  if msg = [] then strB "QUIT"
  else filterMessage (strB "QUIT :" ++ firstLine msg)

/-- `composeNick`: `NICK :<firstLine nick>`, filtered. -/
def composeNick (nick : List Nat) : List Nat :=
  filterMessage (strB "NICK :" ++ firstLine nick)

/-- `strings.SplitN(s, ",", 2)[0]`: the prefix before the first comma. -/
def beforeComma (s : List Nat) : List Nat := s.takeWhile (fun c => !(c == 44))

/-- `composeJoin`: channels (and keys) are clamped to their first word and
first comma-free segment, then re-joined with commas. -/
def composeJoin (channels keys : List (List Nat)) : List Nat :=
  let newchan := channels.map (fun c => beforeComma (firstWord c))
  let newkey := keys.map (fun k => beforeComma (firstWord k))
  if 0 < newkey.length then
    filterMessage (strB "JOIN " ++ List.intercalate (strB ",") newchan ++ strB " "
      ++ List.intercalate (strB ",") newkey)
  else
    filterMessage (strB "JOIN " ++ List.intercalate (strB ",") newchan)

/-- `composePart`: like `composeJoin`, with an optional trailing message. -/
def composePart (channels : List (List Nat)) (msg : List Nat) : List Nat :=
  let newchan := channels.map (fun c => beforeComma (firstWord c))
  if msg ≠ [] then
    filterMessage (strB "PART " ++ List.intercalate (strB ",") newchan ++ strB " :"
      ++ firstLine msg)
  else
    filterMessage (strB "PART " ++ List.intercalate (strB ",") newchan)

/-! ## Rune-level model of the line parser

`User`, `parseUser` and `parseLine` from the library's parsing file, and
`processLine` from `conn.go`.  Strings are rune sequences here (see the
header); all delimiters involved are ASCII. -/

/-- `User`: parsed `nick!user@host` plus the raw source string. -/
structure User where
  Nick : List Char
  User : List Char
  Host : List Char
  Raw : List Char
deriving DecidableEq, Repr

def emptyUser : User := ⟨[], [], [], []⟩

/-- First character class of the nick in `userRegex`:
`[a-zA-Z[-`+"`"+`{-}]` (letters, `0x5B`–`0x60`, `0x7B`–`0x7D`). -/
def nickA (c : Char) : Bool :=
  ('a' ≤ c && c ≤ 'z') || ('A' ≤ c && c ≤ 'Z')
  || (0x5B ≤ c.toNat && c.toNat ≤ 0x60) || (0x7B ≤ c.toNat && c.toNat ≤ 0x7D)

/-- Subsequent nick characters: `nickA` plus digits and `-`. -/
def nickB (c : Char) : Bool :=
  nickA c || ('0' ≤ c && c ≤ '9') || c == '-'

/-- Matching of `userRegex`, i.e.
`^([a-zA-Z[-`+"`"+`{-}][a-zA-Z0-9[-`+"`"+`{-}\-]+)(?:!([^@]+))@(.+)$`,
unfolded into its (deterministic) leftmost-greedy semantics:
* group 1 is the maximal run of nick characters (the run cannot stop
  early, because the character after a shortened run would still be a nick
  character, not `!`), at least two characters;
* a literal `!` must follow (the non-capturing group has no `?`);
* group 2 is everything up to the first `@` thereafter (`[^@]+` cannot
  cross an `@`), nonempty;
* group 3 is the rest, nonempty and free of `\n` (RE2 `.` does not match
  newline and `$` anchors at end of text). -/
def runeMatch (s : List Char) : Option (List Char × List Char × List Char) :=
  match s with
  | [] => none
  | a :: rest =>
    if nickA a then
      let bs := rest.takeWhile nickB
      let rest2 := rest.dropWhile nickB
      if bs = [] then none
      else
        match rest2 with
        | '!' :: rest3 =>
          let user := rest3.takeWhile (· != '@')
          let rest4 := rest3.dropWhile (· != '@')
          if user = [] then none
          else
            match rest4 with
            | '@' :: host =>
              if host ≠ [] ∧ '\n' ∉ host then some (a :: bs, user, host) else none
            | _ => none
        | _ => none
    else none

/-- `parseUser`: populate the three components on a regex match, otherwise
only `Raw`. -/
def parseUser (raw : List Char) : User :=
  match runeMatch raw with
  | some (n, u, h) => { Nick := n, User := u, Host := h, Raw := raw }
  | none => { Nick := [], User := [], Host := [], Raw := raw }

/-- `User.String()`: the nick if nonempty, otherwise the raw string. -/
def userString (u : User) : List Char :=
  if u.Nick ≠ [] then u.Nick else u.Raw

/-- `Line`: one parsed IRC message.  `Dst` is the destination field that
CTCP rewriting fills in (present on the library's `Line`, used by
`processLine`); the parse-time `Time` field has no bearing on any claim
and is omitted. -/
structure Line where
  Src : User
  Command : List Char
  Args : List (List Char)
  Raw : List Char
  Dst : List Char
  me : User
deriving DecidableEq, Repr

/-- `strings.SplitN(input, " :", 2)`: split at the first occurrence of
`" :"`; `none` when absent. -/
def splitColon : List Char → Option (List Char × List Char)
  | ' ' :: ':' :: rest => some ([], rest)
  | c :: rest =>
    match splitColon rest with
    | some (a, b) => some (c :: a, b)
    | none => none
  | [] => none

/-- Single pass of `strings.FieldsFunc(l, r == ' ')` carrying the current
(reversed) field. -/
def fieldsSpaceAux (cur : List Char) : List Char → List (List Char)
  | [] => if cur.isEmpty then [] else [cur.reverse]
  | c :: rest =>
    if c = ' ' then
      if cur.isEmpty then fieldsSpaceAux [] rest
      else cur.reverse :: fieldsSpaceAux [] rest
    else fieldsSpaceAux (c :: cur) rest

/-- `strings.FieldsFunc(l, r == ' ')`: maximal space-free fields, no
empties. -/
def fieldsSpace (l : List Char) : List (List Char) := fieldsSpaceAux [] l

/-- `parseLine` from the parsing file. -/
def parseLine (input : List Char) : Line :=
  let line0 : Line :=
    { Src := emptyUser, Command := [], Args := [], Raw := input, Dst := [], me := emptyUser }
  if input = [] ∨ input.head? = some ' ' then line0
  else
    let comps := splitColon input
    let words := fieldsSpace (match comps with | some (a, _) => a | none => input)
    match words with
    | [] => line0
    | w0 :: wrest =>
      let sw :=
        if w0.head? = some ':' then (parseUser w0.tail, wrest) else (emptyUser, w0 :: wrest)
      match sw.2 with
      | [] => { line0 with Src := sw.1 }
      | cmd :: args =>
        let args2 := match comps with | some (_, trailing) => args ++ [trailing] | none => args
        { line0 with Src := sw.1, Command := cmd, Args := args2 }

/-- `conn.go` event-name constants. -/
def ACTION : List Char := "irc:action".toList

def CTCP : List Char := "irc:ctcp".toList

def CTCPREPLY : List Char := "irc:ctcpreply".toList

/-- `strings.SplitN(text, " ", 2)`. -/
def splitFirstSpace (text : List Char) : List (List Char) :=
  match text.dropWhile (· != ' ') with
  | [] => [text.takeWhile (· != ' ')]
  | _ :: rest => [text.takeWhile (· != ' '), rest]

/-- The CTCP-detection block of `Conn.processLine`: a PRIVMSG/NOTICE with
more than one argument whose last argument starts with `\x01` is rewritten
in place. -/
def ctcpRewrite (line : Line) : Line :=
  if (line.Command = "PRIVMSG".toList ∨ line.Command = "NOTICE".toList) ∧
      1 < line.Args.length ∧ (line.Args.getLastD []).head? = some '\x01' then
    let text0 := (line.Args.getLastD []).tail
    let text := if text0.getLast? = some '\x01' then text0.dropLast else text0
    let dst := line.Args.headD []
    let args := splitFirstSpace text
    if line.Command = "PRIVMSG".toList then
      if args.headD [] = "ACTION".toList then
        { line with
          Command := ACTION
          Args := (if 1 < args.length then [args.getD 1 []] else [[]])
          Dst := dst }
      else { line with Command := CTCP, Args := args, Dst := dst }
    else { line with Command := CTCPREPLY, Args := args, Dst := dst }
  else line

/-- `Conn.processLine`, up to dispatch: parse; drop (return `none`) when
the command is empty; otherwise stamp `me` and apply CTCP rewriting, and
dispatch the resulting line (`some`). -/
def processLine (me : User) (input : List Char) : Option Line :=
  if (parseLine input).Command = [] then none
  else some (ctcpRewrite { parseLine input with me := me })

/-! ## Nick-collision policy (`Conn.badNick`, `h_badNick`)

The process-wide `lastNick` is passed and returned explicitly. -/

/-- `strings.LastIndexFunc`: index of the last rune satisfying `p`
(rune index here; Go's byte index of the rune start together with the
rune's byte size amounts to the same single-rune replacement below). -/
def lastIndexFunc (l : List Char) (p : Char → Bool) : Option Nat :=
  match l with
  | [] => none
  | c :: rest =>
    match lastIndexFunc rest p with
    | some i => some (i + 1)
    | none => if p c then some 0 else none

/-- `Conn.badNick`: returns `(new nick, new lastNick, did shutdown)`.
On shutdown the empty nick is returned and `lastNick` is left unchanged
(the Go function returns before the `lastNick = oldnick` assignment). -/
def badNick (lastNick oldnick : List Char) : List Char × List Char × Bool :=
  if oldnick = [] then ([], lastNick, true)
  else if oldnick ≠ lastNick ∧ oldnick.isPrefixOf lastNick then
    match lastIndexFunc oldnick (· != '_') with
    | none => ([], lastNick, true)
    | some idx =>
      let nn := oldnick.take idx ++ ['_'] ++ oldnick.drop (idx + 1)
      (nn, nn, false)
  else
    let nn := oldnick ++ ['_']
    (nn, nn, false)

/-- The UTF-8 bytes of a rune string (how a Go string handed to the
byte-level composers reads). -/
def encodeRunes (l : List Char) : List Nat := encodeStr (l.map Char.toNat)

/-- Outcome of one `h_badNick` invocation under the default policy:
the enqueued wire line if any, the updated `lastNick`, and whether the
connection was shut down. -/
structure NickOutcome where
  sent : Option (List Nat)
  lastNick : List Char
  didShutdown : Bool
deriving DecidableEq, Repr

/-- `h_badNick` with `conn.nickInUse = nil` (default policy): extract the
contested nick from `Args[1]` (absent for 431 or short argument lists),
run `badNick`, and send `NICK` via `composeNick` unless the connection was
shut down by the policy. -/
def h_badNick (lastNick : List Char) (line : Line) (errCode : Nat) : NickOutcome :=
  let oldnick := if errCode ≠ 431 ∧ 1 < line.Args.length then line.Args.getD 1 [] else []
  let r := badNick lastNick oldnick
  if r.2.2 then { sent := none, lastNick := r.2.1, didShutdown := true }
  else { sent := some (composeNick (encodeRunes r.1)), lastNick := r.2.1, didShutdown := false }

/-! ## Thread-safe handle (`safeConn`) and `Conn.Shutdown` -/

/-- The shared sub-state: the writer channel (queue of outbound strings)
and the invoker channel (abstracted to a count of enqueued closures), both
nullable.  The server address and registry play no role in the claims. -/
structure SafeConnState where
  writer : Option (List (List Nat))
  invoker : Option Nat
deriving DecidableEq, Repr

/-- `safeConn.exec`: under the read lock, check `writer != nil`; if
non-null run the closure and return `true`, else return `false`. -/
def scExec (st : SafeConnState) (f : SafeConnState → SafeConnState) : Bool × SafeConnState :=
  match st.writer with
  | some _ => (true, f st)
  | none => (false, st)

/-- Push one outbound string onto the writer channel. -/
def scPush (st : SafeConnState) (msg : List Nat) : SafeConnState :=
  { st with writer := st.writer.map (fun q => q ++ [msg]) }

def scRaw (st : SafeConnState) (msg : List Nat) : Bool × SafeConnState :=
  scExec st (fun s => scPush s (filterMessage (firstLine msg)))

def scPrivmsg (st : SafeConnState) (dst msg : List Nat) : Bool × SafeConnState :=
  scExec st (fun s => scPush s (composePrivmsg dst msg))

def scAction (st : SafeConnState) (dst msg : List Nat) : Bool × SafeConnState :=
  scExec st (fun s => scPush s (composeCTCP dst (strB "ACTION") msg false))

def scCTCP (st : SafeConnState) (dst command args : List Nat) : Bool × SafeConnState :=
  scExec st (fun s => scPush s (composeCTCP dst command args false))

def scCTCPReply (st : SafeConnState) (dst command args : List Nat) : Bool × SafeConnState :=
  scExec st (fun s => scPush s (composeCTCP dst command args true))

def scQuit (st : SafeConnState) (msg : List Nat) : Bool × SafeConnState :=
  scExec st (fun s => scPush s (composeQuit msg))

def scNick (st : SafeConnState) (newnick : List Nat) : Bool × SafeConnState :=
  scExec st (fun s => scPush s (composeNick newnick))

def scJoin (st : SafeConnState) (channels keys : List (List Nat)) : Bool × SafeConnState :=
  scExec st (fun s => if 0 < channels.length then scPush s (composeJoin channels keys) else s)

def scPart (st : SafeConnState) (channels : List (List Nat)) (msg : List Nat) :
    Bool × SafeConnState :=
  scExec st (fun s => if 0 < channels.length then scPush s (composePart channels msg) else s)

def scInvoke (st : SafeConnState) : Bool × SafeConnState :=
  scExec st (fun s => { s with invoker := s.invoker.map (· + 1) })

/-- The `Conn` state touched by `Shutdown`: the socket (with a counter of
`Close()` calls), the writer channel's closed flag, the shared sub-state,
and a counter of `irc:disconnected` dispatches. -/
structure ConnState where
  netconnOpen : Bool
  socketCloses : Nat
  writerChanClosed : Bool
  sub : SafeConnState
  disconnectDispatches : Nat
deriving DecidableEq, Repr

/-- `Conn.Shutdown`: if the socket is non-null, close and null it, close
the writer channel, null the sub-state's writer and invoker, and dispatch
`irc:disconnected`; otherwise do nothing. -/
def Shutdown (c : ConnState) : ConnState :=
  if c.netconnOpen then
    { netconnOpen := false
      socketCloses := c.socketCloses + 1
      writerChanClosed := true
      sub := { writer := none, invoker := none }
      disconnectDispatches := c.disconnectDispatches + 1 }
  else c

/-! ## The writer pump (`connWriter`): flood pacing and wire format -/

/-- One pacing step of `connWriter` (config.go): given the current clock
and `floodTime` cursor (nanoseconds) and the line length, return the new
cursor and the sleep duration.  With `allowFlood` the step is skipped. -/
def connWriterPace (allowFlood : Bool) (now floodTime lineLen : Nat) : Nat × Nat :=
  if allowFlood then (floodTime, 0)
  else
    let ft := if floodTime < now then now else floodTime
    let penalty := 2 * 1000000000 + 1000000000 * lineLen / 120
    let ft2 := ft + penalty
    let delta := ft2 - now
    (ft2, if 10 * 1000000000 < delta then delta - 10 * 1000000000 else 0)

/-- What the writer puts on the wire for one queued line:
`line + "\r\n"`. -/
def wireLine (l : List Nat) : List Nat := l ++ [13, 10]

/-- `Conn.Privmsg` (owner side): push one composed string onto the writer
channel. -/
def connPrivmsg (writerQ : List (List Nat)) (dst msg : List Nat) : List (List Nat) :=
  writerQ ++ [composePrivmsg dst msg]

/-! ## Claim theorems -/

/-- C3 (code bug): the non-capturing group `(?:!([^@]+))` in `userRegex`
carries no `?`, so the `!user` part is mandatory; `parseUser` on the
`nick@host` form (which the `User` doc comment and the spec call accepted,
with `User` empty) leaves all three components empty, and `String()` then
falls back to the raw string.  A source with the `!user` part present
parses as documented. -/
theorem C3_parseUser_requires_user_part :
    parseUser ("nick@host".toList)
      = { Nick := [], User := [], Host := [], Raw := "nick@host".toList } ∧
    userString (parseUser ("nick@host".toList)) = "nick@host".toList ∧
    parseUser ("nick!user@host".toList)
      = { Nick := "nick".toList, User := "user".toList, Host := "host".toList,
          Raw := "nick!user@host".toList } := by
  refine ⟨?_, ?_, ?_⟩ <;> decide

/-- C9: `Shutdown` is idempotent — a second call finds the socket already
nulled and leaves the whole state (close counter, writer flag, sub-state,
disconnect-dispatch counter) untouched. -/
theorem C9_Shutdown_idempotent (c : ConnState) :
    Shutdown (Shutdown c) = Shutdown c := by
  by_cases h : c.netconnOpen = true <;> simp [Shutdown, h]

/-- C2: every thread-safe send (and `Invoke`) returns exactly the outcome
of the `writer != nil` check on the shared sub-state; `Shutdown` of a live
connection nulls that writer; with a writer installed every send returns
`true`, and with it nulled every send returns `false`. -/
theorem C2_safe_send_returns_writer_check (st : SafeConnState) (m d cmd a nn : List Nat)
    (chans keys : List (List Nat)) :
    ((scRaw st m).1 = st.writer.isSome ∧
     (scPrivmsg st d m).1 = st.writer.isSome ∧
     (scAction st d m).1 = st.writer.isSome ∧
     (scCTCP st d cmd a).1 = st.writer.isSome ∧
     (scCTCPReply st d cmd a).1 = st.writer.isSome ∧
     (scQuit st m).1 = st.writer.isSome ∧
     (scNick st nn).1 = st.writer.isSome ∧
     (scJoin st chans keys).1 = st.writer.isSome ∧
     (scPart st chans m).1 = st.writer.isSome ∧
     (scInvoke st).1 = st.writer.isSome) ∧
    (∀ (n dd : Nat) (w : Bool) (sub : SafeConnState),
      (Shutdown ⟨true, n, w, sub, dd⟩).sub.writer = none) ∧
    (∀ (q : List (List Nat)) (i : Option Nat),
      (scRaw ⟨some q, i⟩ m).1 = true ∧ (scInvoke ⟨some q, i⟩).1 = true) ∧
    (∀ i : Option Nat, (scRaw ⟨none, i⟩ m).1 = false ∧ (scInvoke ⟨none, i⟩).1 = false) := by
  obtain ⟨w, i⟩ := st
  refine ⟨?_, ?_, ?_, ?_⟩
  · cases w <;>
      exact ⟨rfl, rfl, rfl, rfl, rfl, rfl, rfl, rfl, rfl, rfl⟩
  · intro n dd wf sub
    rfl
  · intro q iv
    exact ⟨rfl, rfl⟩
  · intro iv
    exact ⟨rfl, rfl⟩

/-- C7: with flood protection on, the pacing step advances the cursor to
`max(now, floodTime) + 2 s + len/120 s`; it sleeps exactly `delta − 10 s`
iff `delta = floodTime' − now` exceeds 10 s (and 0 otherwise); hence the
line is sent no later than the cursor and no earlier than 10 s before
it. -/
theorem C7_flood_pacing (now floodTime lineLen : Nat) :
    (connWriterPace false now floodTime lineLen).1
      = max now floodTime + 2 * 1000000000 + 1000000000 * lineLen / 120 ∧
    (10 * 1000000000 < (connWriterPace false now floodTime lineLen).1 - now →
      (connWriterPace false now floodTime lineLen).2
        = (connWriterPace false now floodTime lineLen).1 - now - 10 * 1000000000) ∧
    ((connWriterPace false now floodTime lineLen).1 - now ≤ 10 * 1000000000 →
      (connWriterPace false now floodTime lineLen).2 = 0) ∧
    now + (connWriterPace false now floodTime lineLen).2
      ≤ (connWriterPace false now floodTime lineLen).1 ∧
    (connWriterPace false now floodTime lineLen).1
      ≤ now + (connWriterPace false now floodTime lineLen).2 + 10 * 1000000000 := by
  simp only [connWriterPace, Bool.false_eq_true, if_false]
  refine ⟨by split_ifs <;> omega, ?_, ?_, ?_, ?_⟩ <;> split_ifs <;> omega

/-- Witness for C7 at `now = 0`, `floodTime = 0`, `lineLen = 1200`:
the cursor moves to 12 s and the sleep is exactly `delta − 10 s = 2 s`. -/
theorem C7_flood_pacing_witness :
    10 * 1000000000 < (connWriterPace false 0 0 1200).1 - 0 ∧
    (connWriterPace false 0 0 1200).2
      = (connWriterPace false 0 0 1200).1 - 0 - 10 * 1000000000 ∧
    (connWriterPace false 0 0 1200).2 = 2000000000 :=
  ⟨by decide, (C7_flood_pacing 0 0 1200).2.1 (by decide), by decide⟩

/-- C8: `Privmsg("#x\r\nQUIT", "hi")` enqueues exactly the one string
`PRIVMSG #x :hi`, which the writer frames as the single wire line
`PRIVMSG #x :hi\r\n`; in general the destination is clamped to its first
space/CR/LF-delimited token and the body to its first CR/LF-delimited
line, and the composed message contains no CR or LF, so the wire line
carries exactly one command. -/
theorem C8_privmsg_no_injection :
    (∀ q : List (List Nat),
      connPrivmsg q (strB "#x\r\nQUIT") (strB "hi") = q ++ [strB "PRIVMSG #x :hi"]) ∧
    wireLine (composePrivmsg (strB "#x\r\nQUIT") (strB "hi")) = strB "PRIVMSG #x :hi\r\n" ∧
    (∀ dst msg : List Nat,
      composePrivmsg dst msg
        = filterMessage (strB "PRIVMSG " ++ firstWord dst ++ strB " :" ++ firstLine msg) ∧
      (∃ rest, dst = firstWord dst ++ rest) ∧
      (∀ c ∈ firstWord dst, c ≠ 32 ∧ c ≠ 13 ∧ c ≠ 10) ∧
      (∃ rest, msg = firstLine msg ++ rest) ∧
      (∀ c ∈ firstLine msg, c ≠ 13 ∧ c ≠ 10) ∧
      (∀ c ∈ composePrivmsg dst msg, c ≠ 13 ∧ c ≠ 10)) := by
  refine ⟨fun q => by rw [connPrivmsg, show composePrivmsg (strB "#x\r\nQUIT") (strB "hi")
      = strB "PRIVMSG #x :hi" by decide],
    by decide, fun dst msg =>
      ⟨rfl, ⟨dst.dropWhile (fun c => !(c == 32 || c == 13 || c == 10)), ?_⟩, ?_,
        ⟨msg.dropWhile (fun c => !(c == 13 || c == 10)), ?_⟩, ?_, ?_⟩⟩
  · exact (List.takeWhile_append_dropWhile _ _).symm
  · intro c hc
    have := List.mem_takeWhile_imp hc
    simp only [Bool.or_eq_true, beq_iff_eq, Bool.not_eq_true', Bool.or_eq_false_iff,
      beq_eq_false_iff_ne, ne_eq] at this
    exact ⟨this.1.1, this.1.2, this.2⟩
  · exact (List.takeWhile_append_dropWhile _ _).symm
  · intro c hc
    have := List.mem_takeWhile_imp hc
    simp only [Bool.or_eq_true, beq_iff_eq, Bool.not_eq_true', Bool.or_eq_false_iff,
      beq_eq_false_iff_ne, ne_eq] at this
    exact this
  · intro c hc
    have := filterMessage_no_bad _ c hc
    exact ⟨this.2.1, this.2.2⟩

/-- Helper for C5: a run of underscores has no rune failing `≠ '_'`. -/
theorem lastIndexFunc_underscores (l : List Char) (h : ∀ c ∈ l, c = '_') :
    lastIndexFunc l (· != '_') = none := by
  induction l with
  | nil => rfl
  | cons c rest ih =>
    have hc : c = '_' := h c (by simp)
    have hrest : ∀ x ∈ rest, x = '_' := fun x hx => h x (by simp [hx])
    simp only [lastIndexFunc, ih hrest]
    subst hc
    simp

/-- C5 counterexample: with a fresh `lastNick`, `433 * taken :in use`
makes the client send `NICK :taken_` — but a second identical `433` sends
`NICK :take_` (the truncation branch replaces the rightmost
non-underscore), not `NICK :take__`; a second `433` reporting `taken_`
instead sends `NICK :taken__`, still not `take__`; and a contested nick of
underscores does not shut the connection down when the prefix condition
fails (fresh `lastNick`): it just gains another underscore. -/
theorem C5_badNick_counterexample :
    (h_badNick [] (parseLine ("433 * taken :in use".toList)) 433).sent
      = some (strB "NICK :taken_") ∧
    (h_badNick ("taken_".toList) (parseLine ("433 * taken :in use".toList)) 433).sent
      = some (strB "NICK :take_") ∧
    (h_badNick ("taken_".toList) (parseLine ("433 * taken :in use".toList)) 433).sent
      ≠ some (strB "NICK :take__") ∧
    (h_badNick ("taken_".toList) (parseLine ("433 * taken_ :in use".toList)) 433).sent
      = some (strB "NICK :taken__") ∧
    (h_badNick [] (parseLine ("433 * ___ :in use".toList)) 433).didShutdown = false ∧
    (h_badNick [] (parseLine ("433 * ___ :in use".toList)) 433).sent
      = some (strB "NICK :____") := by
  refine ⟨?_, ?_, ?_, ?_, ?_, ?_⟩ <;> decide

/-- C5 as amended: the first `433 * taken :in use` sends `NICK :taken_`;
a second identical one sends `NICK :take_`; a contested nick consisting
entirely of underscores shuts the connection down (without sending) when
it differs from `lastNick` and is a prefix of it (the server-truncation
branch); an empty contested nick always shuts down; and a shutdown
suppresses the `NICK` send. -/
theorem C5_badNick_amended :
    (h_badNick [] (parseLine ("433 * taken :in use".toList)) 433)
      = ⟨some (strB "NICK :taken_"), "taken_".toList, false⟩ ∧
    (h_badNick ("taken_".toList) (parseLine ("433 * taken :in use".toList)) 433)
      = ⟨some (strB "NICK :take_"), "take_".toList, false⟩ ∧
    (∀ lastNick oldnick : List Char, oldnick ≠ [] → (∀ c ∈ oldnick, c = '_') →
      oldnick ≠ lastNick → oldnick.isPrefixOf lastNick = true →
      badNick lastNick oldnick = ([], lastNick, true)) ∧
    (∀ lastNick : List Char, badNick lastNick [] = ([], lastNick, true)) ∧
    (∀ (lastNick : List Char) (l : Line) (e : Nat),
      (h_badNick lastNick l e).didShutdown = true → (h_badNick lastNick l e).sent = none) := by
  refine ⟨by decide, by decide, ?_, ?_, ?_⟩
  · intro lastNick oldnick hne hund hneq hpre
    rw [badNick, if_neg hne, if_pos ⟨hneq, hpre⟩, lastIndexFunc_underscores oldnick hund]
  · intro lastNick
    rw [badNick, if_pos rfl]
  · intro lastNick l e
    by_cases hb : (badNick lastNick
        (if e ≠ 431 ∧ 1 < l.Args.length then l.Args.getD 1 [] else [])).2.2 = true
    · simp only [h_badNick]
      rw [if_pos hb]
      intro _
      rfl
    · simp only [h_badNick]
      rw [if_neg hb]
      intro h
      simp at h

/-- Witness for C5: the quantified parts applied at `lastNick = "____"`,
`oldnick = "___"` (exhaustion) and at the empty contested nick. -/
theorem C5_badNick_amended_witness :
    badNick ("____".toList) ("___".toList) = ([], "____".toList, true) ∧
    badNick ("x".toList) [] = ([], "x".toList, true) :=
  ⟨C5_badNick_amended.2.2.1 ("____".toList) ("___".toList) (by decide) (by decide)
      (by decide) (by decide),
    C5_badNick_amended.2.2.2.1 ("x".toList)⟩

/-- The spec's description of CTCP text stripping: drop the leading `\x01`
of the final argument and the optional trailing `\x01`. -/
def ctcpText (l : Line) : List Char :=
  let text0 := (l.Args.getLastD []).tail
  if text0.getLast? = some '\x01' then text0.dropLast else text0

/-- Helper for C4: on a line satisfying the rewrite conditions,
`ctcpRewrite` produces exactly the spec-described line. -/
theorem ctcpRewrite_eq (l : Line)
    (h1 : l.Command = "PRIVMSG".toList ∨ l.Command = "NOTICE".toList)
    (h2 : 1 < l.Args.length)
    (h3 : (l.Args.getLastD []).head? = some '\x01') :
    ctcpRewrite l =
      { Src := l.Src
        Raw := l.Raw
        me := l.me
        Dst := l.Args.headD []
        Command :=
          (if l.Command = "PRIVMSG".toList then
            (if (splitFirstSpace (ctcpText l)).headD [] = "ACTION".toList then ACTION else CTCP)
          else CTCPREPLY)
        Args :=
          (if l.Command = "PRIVMSG".toList ∧
              (splitFirstSpace (ctcpText l)).headD [] = "ACTION".toList then
            (if 1 < (splitFirstSpace (ctcpText l)).length then
              [(splitFirstSpace (ctcpText l)).getD 1 []]
            else [[]])
          else splitFirstSpace (ctcpText l)) } := by
  simp only [ctcpRewrite]
  rw [if_pos ⟨h1, h2, h3⟩]
  simp only [ctcpText]
  split_ifs <;> first | rfl | tauto

/-- C4 counterexample: `PRIVMSG :\x01ACTION waves\x01` parses to a PRIVMSG
whose final argument begins with `\x01`, yet — having only one argument —
it is dispatched unrewritten: the command stays `PRIVMSG` (not
`irc:action`) and `Dst` stays empty, against the claim's universal
statement. -/
theorem C4_ctcp_counterexample :
    (parseLine ("PRIVMSG :\x01ACTION waves\x01".toList)).Command = "PRIVMSG".toList ∧
    ((parseLine ("PRIVMSG :\x01ACTION waves\x01".toList)).Args.getLastD []).head?
      = some '\x01' ∧
    (processLine emptyUser ("PRIVMSG :\x01ACTION waves\x01".toList)).map Line.Command
      = some ("PRIVMSG".toList) ∧
    (processLine emptyUser ("PRIVMSG :\x01ACTION waves\x01".toList)).map Line.Command
      ≠ some ACTION ∧
    (processLine emptyUser ("PRIVMSG :\x01ACTION waves\x01".toList)).map Line.Dst
      = some [] := by
  refine ⟨?_, ?_, ?_, ?_, ?_⟩ <;> decide

/-- C4 as amended: for every parsed PRIVMSG/NOTICE line **with at least
two arguments** whose final argument begins with `\x01`, `processLine`
dispatches the line with the original target moved into `Dst`, the
delimiters stripped, the text split on the first space, and the command
rewritten to `irc:action` (PRIVMSG with inner command ACTION, keeping only
the remainder — or the empty string — as the sole argument), `irc:ctcp`
(other PRIVMSG) or `irc:ctcpreply` (NOTICE). -/
theorem C4_ctcp_rewrite_amended (me : User) (input : List Char)
    (h1 : (parseLine input).Command = "PRIVMSG".toList ∨
      (parseLine input).Command = "NOTICE".toList)
    (h2 : 1 < (parseLine input).Args.length)
    (h3 : ((parseLine input).Args.getLastD []).head? = some '\x01') :
    processLine me input = some
      { Src := (parseLine input).Src
        Raw := (parseLine input).Raw
        me := me
        Dst := (parseLine input).Args.headD []
        Command :=
          (if (parseLine input).Command = "PRIVMSG".toList then
            (if (splitFirstSpace (ctcpText (parseLine input))).headD [] = "ACTION".toList then
              ACTION
            else CTCP)
          else CTCPREPLY)
        Args :=
          (if (parseLine input).Command = "PRIVMSG".toList ∧
              (splitFirstSpace (ctcpText (parseLine input))).headD [] = "ACTION".toList then
            (if 1 < (splitFirstSpace (ctcpText (parseLine input))).length then
              [(splitFirstSpace (ctcpText (parseLine input))).getD 1 []]
            else [[]])
          else splitFirstSpace (ctcpText (parseLine input))) } := by
  have hne : (parseLine input).Command ≠ [] := by
    rcases h1 with h | h <;> rw [h] <;> simp
  simp only [processLine]
  rw [if_neg hne]
  exact congrArg some (ctcpRewrite_eq { parseLine input with me := me } h1 h2 h3)

/-- The concrete scenario input of claim C4. -/
def actionScenario : List Char := ":nick PRIVMSG me :\x01ACTION waves\x01".toList

/-- Witness for C4 on the claim's scenario: the hypotheses hold for
`:nick PRIVMSG me :\x01ACTION waves\x01` and the amended theorem yields
`irc:action` with args `["waves"]` and dst `"me"`. -/
theorem C4_ctcp_rewrite_amended_witness :
    ((parseLine actionScenario).Command = "PRIVMSG".toList ∨
      (parseLine actionScenario).Command = "NOTICE".toList) ∧
    1 < (parseLine actionScenario).Args.length ∧
    ((parseLine actionScenario).Args.getLastD []).head? = some '\x01' ∧
    processLine emptyUser actionScenario = some
      { Src := { Nick := [], User := [], Host := [], Raw := "nick".toList }
        Raw := actionScenario
        me := emptyUser
        Dst := "me".toList
        Command := ACTION
        Args := ["waves".toList] } :=
  ⟨Or.inl (by decide), by decide, by decide,
    (C4_ctcp_rewrite_amended emptyUser actionScenario (Or.inl (by decide)) (by decide)
      (by decide)).trans (by decide)⟩

/-- `FieldsFunc` never produces an empty field. -/
theorem fieldsSpaceAux_ne_nil (l : List Char) :
    ∀ cur, ∀ w ∈ fieldsSpaceAux cur l, w ≠ [] := by
  induction l with
  | nil =>
    intro cur w hw
    simp only [fieldsSpaceAux] at hw
    by_cases hc : cur.isEmpty
    · rw [if_pos hc] at hw
      simp at hw
    · rw [if_neg hc] at hw
      simp only [List.mem_cons, List.not_mem_nil, or_false] at hw
      subst hw
      simp only [ne_eq, List.reverse_eq_nil_iff]
      simpa [List.isEmpty_iff] using hc
  | cons c rest ih =>
    intro cur w hw
    simp only [fieldsSpaceAux] at hw
    by_cases hsp : c = ' '
    · rw [if_pos hsp] at hw
      by_cases hc : cur.isEmpty
      · rw [if_pos hc] at hw
        exact ih [] w hw
      · rw [if_neg hc] at hw
        rcases List.mem_cons.mp hw with rfl | hw2
        · simp only [ne_eq, List.reverse_eq_nil_iff]
          simpa [List.isEmpty_iff] using hc
        · exact ih [] w hw2
    · rw [if_neg hsp] at hw
      exact ih (c :: cur) w hw

theorem fieldsSpace_ne_nil (l : List Char) : ∀ w ∈ fieldsSpace l, w ≠ [] :=
  fieldsSpaceAux_ne_nil l []

/-- The spec's "no command token after the optional prefix": after
splitting off the trailing part and tokenizing, either there are no
tokens, or the only token is the `:`-prefixed sender. -/
def noCommandToken (input : List Char) : Prop :=
  match fieldsSpace (match splitColon input with | some (a, _) => a | none => input) with
  | [] => True
  | w :: ws => w.head? = some ':' ∧ ws = []

/-- C6: `parseLine` leaves the command empty exactly on parse failure —
empty input, input beginning with a space, or no command token after the
optional prefix — and `processLine` dispatches no handler for such lines:
they are dropped (`none`). -/
theorem C6_empty_command_iff_dropped (input : List Char) (me : User) :
    ((parseLine input).Command = [] ↔
      (input = [] ∨ input.head? = some ' ' ∨ noCommandToken input)) ∧
    (processLine me input = none ↔ (parseLine input).Command = []) := by
  constructor
  · by_cases hg : input = [] ∨ input.head? = some ' '
    · simp only [parseLine]
      rw [if_pos hg]
      constructor
      · intro _
        rcases hg with h | h
        · exact Or.inl h
        · exact Or.inr (Or.inl h)
      · intro _
        rfl
    · have hrhs : (input = [] ∨ input.head? = some ' ' ∨ noCommandToken input) ↔
          noCommandToken input := by tauto
      rw [hrhs]
      cases hw : fieldsSpace (match splitColon input with | some (a, _) => a | none => input) with
      | nil =>
        simp [parseLine, noCommandToken, hw, hg]
      | cons w0 ws =>
        by_cases hcol : w0.head? = some ':'
        · cases ws with
          | nil =>
            simp [parseLine, noCommandToken, hw, hg, hcol]
          | cons cmd args =>
            have hcmd : cmd ≠ [] := fieldsSpace_ne_nil _ cmd (by rw [hw]; simp)
            simp [parseLine, noCommandToken, hw, hg, hcol, hcmd]
        · have hw0 : w0 ≠ [] := fieldsSpace_ne_nil _ w0 (by rw [hw]; simp)
          simp [parseLine, noCommandToken, hw, hg, hcol, hw0]
  · by_cases h : (parseLine input).Command = [] <;> simp [processLine, h]

end Goirc
